import Mathlib

/-!
Verification development for the monthly-base-rate apartment-price predictor
(`src/app.py`).  The pipeline embedded here is, in source order:

* `load_data` (app.py:37-42): read the CSV, drop rows whose rate (기준금리) or
  price (평균가격) is missing;
* the sort `data.sort_values(by=["지역", "날짜"])` (app.py:73): order rows by
  (region, date);
* the lag column `data.groupby("지역")["기준금리"].shift(lag_months)`
  (app.py:74): within each region's sub-series, each row receives the rate
  from `lag_months` positions earlier, or a missing value when no such
  predecessor exists;
* the region/date-range filter and the dropna on the lagged column
  (app.py:79-81);
* the `len >= 3` guard (app.py:83), the degree-2 polynomial regression
  (app.py:89-93), the Pearson correlation (app.py:98), and the rendering
  branch versus the insufficient-data warning (app.py:141-142).

Numbers are modelled by `ℚ` (exact arithmetic in place of floats); missing
values by `Option`; a pandas `NaN` correlation is `none`.

The regression `make_pipeline(PolynomialFeatures(degree=2), LinearRegression())`
is embedded by its documented semantics: `PolynomialFeatures(degree=2)` expands
the single input `x` into the columns `[1, x, x^2]` (no cross terms), and
`LinearRegression` (with its default `fit_intercept=True`) centers the columns
and the target and takes the minimum-norm least-squares solution (scipy
`lstsq`), then recovers the intercept from the column means.  Centering makes
the constant column zero, so its coefficient is `0` and the fit reduces to
least squares of the centered prices on the two centered columns
`x - mean x` and `x^2 - mean (x^2)`.  When the 2x2 Gram matrix of those
columns is invertible this is ordinary least squares (Cramer's rule); when it
is singular the minimum-norm solution is written out explicitly (the two
columns are then proportional).
-/

namespace RatePredict

/-- Raw CSV row: region (지역), date (날짜, modelled as a month index),
rate (기준금리) and price (평균가격), each possibly missing. -/
structure RawRow where
  region : String
  date : Int
  rate : Option ℚ
  price : Option ℚ
deriving DecidableEq

/-- Row of the working frame after `load_data`'s dropna: rate and price
are present. -/
structure Row where
  region : String
  date : Int
  rate : ℚ
  price : ℚ
deriving DecidableEq

/-- Row after the lag column 기준금리_시차 has been added (app.py:74). -/
structure LaggedRow where
  region : String
  date : Int
  rate : ℚ
  price : ℚ
  laggedRate : Option ℚ
deriving DecidableEq

/-- Forget the lag column. -/
def toRow (lr : LaggedRow) : Row :=
  { region := lr.region, date := lr.date, rate := lr.rate, price := lr.price }

/-- Replace an observation's rate (the substitution step of the spec's
`apply_lag`). -/
def substRow (v : ℚ) (r : Row) : Row :=
  { region := r.region, date := r.date, rate := v, price := r.price }

/-- The conversion `load_data` applies to one raw row: keep it exactly when
both numeric fields are present (the dropna at app.py:40). -/
def loadRow (t : RawRow) : Option Row :=
  t.rate.bind fun a => t.price.map fun p =>
    { region := t.region, date := t.date, rate := a, price := p }

/-- Embedding of `load_data` (app.py:37-42): rows with a missing rate or
price are excluded; date parsing and the display column 년월 are not
modelled (they do not affect any computation). -/
def loadData (raw : List RawRow) : List Row := raw.filterMap loadRow

/-- Lexicographic comparison of character lists (the order underlying
string comparison). -/
def charsLt : List Char → List Char → Bool
  | [], [] => false
  | [], _ :: _ => true
  | _ :: _, [] => false
  | a :: as, b :: bs => a.val < b.val || (a.val == b.val && charsLt as bs)

/-- String order used by the sort on the region column. -/
def strLt (a b : String) : Bool := charsLt a.data b.data

/-- Sort key of `data.sort_values(by=["지역", "날짜"])` (app.py:73):
first by region, then by date. -/
def rowLE (a b : Row) : Bool :=
  strLt a.region b.region || (a.region == b.region && decide (a.date ≤ b.date))

/-- Insert a row into a sorted list (kept structurally recursive so that
concrete instances evaluate inside the kernel). -/
def insertRow (r : Row) : List Row → List Row
  | [] => [r]
  | x :: xs => if rowLE r x then r :: x :: xs else x :: insertRow r xs

/-- Embedding of `data.sort_values(by=["지역", "날짜"])` (app.py:73) as an
insertion sort: rows are grouped by region and ordered by date within each
region, which is the only property of the sort the program relies on. -/
def sortRows : List Row → List Row
  | [] => []
  | x :: xs => insertRow x (sortRows xs)

/-- Lagged rate of row `r` given the rows `prev` that precede it in the
frame: `groupby("지역")["기준금리"].shift(lag_months)` (app.py:74) gives each
row the rate of the row `k` positions earlier among the rows of the same
region, or a missing value when fewer than `k` same-region rows precede it.
Writing `acc` for the rates of the same-region rows before `r`, the row sits
at position `acc.length` of its group, so the shifted value is entry
`acc.length - k` of `acc ++ [r.rate]` when `k ≤ acc.length` (for `k = 0`
this is `r.rate` itself, matching `shift(0)`). -/
def laggedAt (k : Nat) (prev : List Row) (r : Row) : Option ℚ :=
  let acc := (prev.filter fun q => q.region == r.region).map fun q => q.rate
  if k ≤ acc.length then (acc ++ [r.rate])[acc.length - k]? else none

/-- Worker for the lag column: walk the frame keeping the already-visited
prefix `prev`. -/
def applyLagGo (k : Nat) (prev : List Row) : List Row → List LaggedRow
  | [] => []
  | r :: rest =>
      { region := r.region, date := r.date, rate := r.rate, price := r.price,
        laggedRate := laggedAt k prev r } :: applyLagGo k (prev ++ [r]) rest

/-- Embedding of app.py:74: add the 기준금리_시차 column to the (sorted)
frame. -/
def applyLag (k : Nat) (rows : List Row) : List LaggedRow := applyLagGo k [] rows

/-- Single-region view of the lag computation: `acc` holds the rates of the
same-region rows already passed.  `applyLag` restricted to one region's rows
agrees with this function (proved below); it exists to make the per-region
statements of the specification directly provable. -/
def lagGo (k : Nat) (acc : List ℚ) : List Row → List LaggedRow
  | [] => []
  | r :: rest =>
      { region := r.region, date := r.date, rate := r.rate, price := r.price,
        laggedRate := if k ≤ acc.length then (acc ++ [r.rate])[acc.length - k]? else none }
        :: lagGo k (acc ++ [r.rate]) rest

/-- Observation of the spec-level `apply_lag` output: the lagged rate
replaces the rate and rows without a lagged value are dropped
(spec §4.2; the drop is the dropna at app.py:81). -/
def substLag (lr : LaggedRow) : Option Row :=
  lr.laggedRate.map fun v =>
    { region := lr.region, date := lr.date, rate := v, price := lr.price }

/-- The spec's `apply_lag` (§4.2) as realised by the code: shift the rate
within each region (app.py:74), substitute it for the rate, and drop
observations whose shifted predecessor does not exist (app.py:81). -/
def lagSeries (k : Nat) (rows : List Row) : List Row :=
  (applyLag k rows).filterMap substLag

/-- Embedding of app.py:79-81: the frame (with the lag column computed on
the full sorted data) filtered to the selected region and date range, then
the dropna on `[기준금리_시차, 평균가격]` (the price is present by
construction, so only the lagged rate can be missing). -/
def regionData (raw : List RawRow) (sel : String) (s e : Int) (k : Nat) :
    List LaggedRow :=
  ((applyLag k (sortRows (loadData raw))).filter fun lr =>
      lr.region == sel && decide (s ≤ lr.date) && decide (lr.date ≤ e)).filter
    fun lr => lr.laggedRate.isSome

/-- The (lagged rate, price) pairs of a filtered frame: `X` and `y` of
app.py:89-90, and equally the two columns of the correlation at app.py:98. -/
def dataPairs (l : List LaggedRow) : List (ℚ × ℚ) :=
  l.filterMap fun lr => lr.laggedRate.map fun v => (v, lr.price)

/-- The series the selection feeds to both the fit and the correlation. -/
def seriesOf (raw : List RawRow) (sel : String) (s e : Int) (k : Nat) :
    List (ℚ × ℚ) :=
  dataPairs (regionData raw sel s e k)

/-- The full date-ordered sub-series of one region, before the date-range
filter — the series the shift at app.py:74 is computed over. -/
def regionSeries (raw : List RawRow) (sel : String) : List Row :=
  (sortRows (loadData raw)).filter fun r => r.region == sel

/-- Number of observations, as a rational. -/
def nQ (pts : List (ℚ × ℚ)) : ℚ := (pts.length : ℚ)

/-- Mean of the rate column. -/
def meanX (pts : List (ℚ × ℚ)) : ℚ := (pts.map fun p => p.1).sum / nQ pts

/-- Mean of the squared-rate column (the second feature of the degree-2
expansion `[x, x^2]`). -/
def meanX2 (pts : List (ℚ × ℚ)) : ℚ := (pts.map fun p => p.1 ^ 2).sum / nQ pts

/-- Mean of the price column. -/
def meanY (pts : List (ℚ × ℚ)) : ℚ := (pts.map fun p => p.2).sum / nQ pts

/-- Squared norm of the centered rate column. -/
def cA (pts : List (ℚ × ℚ)) : ℚ :=
  (pts.map fun p => (p.1 - meanX pts) ^ 2).sum

/-- Squared norm of the centered squared-rate column. -/
def cB (pts : List (ℚ × ℚ)) : ℚ :=
  (pts.map fun p => (p.1 ^ 2 - meanX2 pts) ^ 2).sum

/-- Inner product of the two centered feature columns. -/
def cC (pts : List (ℚ × ℚ)) : ℚ :=
  (pts.map fun p => (p.1 - meanX pts) * (p.1 ^ 2 - meanX2 pts)).sum

/-- Inner product of the centered rate column with the centered prices. -/
def cP (pts : List (ℚ × ℚ)) : ℚ :=
  (pts.map fun p => (p.1 - meanX pts) * (p.2 - meanY pts)).sum

/-- Inner product of the centered squared-rate column with the centered
prices. -/
def cQ (pts : List (ℚ × ℚ)) : ℚ :=
  (pts.map fun p => (p.1 ^ 2 - meanX2 pts) * (p.2 - meanY pts)).sum

/-- Squared norm of the centered price column. -/
def cY (pts : List (ℚ × ℚ)) : ℚ :=
  (pts.map fun p => (p.2 - meanY pts) ^ 2).sum

/-- Determinant of the 2x2 Gram matrix of the centered feature columns. -/
def detG (pts : List (ℚ × ℚ)) : ℚ := cA pts * cB pts - cC pts ^ 2

/-- Coefficients `(w₁, w₂)` of `x` and `x^2` fitted by
`make_pipeline(PolynomialFeatures(degree=2), LinearRegression())`
(app.py:91-92): least squares of the centered prices on the centered
columns `[x - x̄, x² - x̄²]`, by Cramer's rule when the Gram matrix is
invertible and by the explicit minimum-norm solution otherwise (see the
header comment). -/
def polyFit (pts : List (ℚ × ℚ)) : ℚ × ℚ :=
  if detG pts ≠ 0 then
    ((cP pts * cB pts - cQ pts * cC pts) / detG pts,
     (cA pts * cQ pts - cC pts * cP pts) / detG pts)
  else if cA pts ≠ 0 then
    ((cP pts / cA pts) / (1 + (cC pts / cA pts) ^ 2),
     (cP pts / cA pts) * (cC pts / cA pts) / (1 + (cC pts / cA pts) ^ 2))
  else if cB pts ≠ 0 then (0, cQ pts / cB pts)
  else (0, 0)

/-- Intercept recovered from the column means after the centered fit. -/
def polyIntercept (pts : List (ℚ × ℚ)) : ℚ :=
  meanY pts - (polyFit pts).1 * meanX pts - (polyFit pts).2 * meanX2 pts

/-- Model evaluation at a query rate (app.py:93): the query undergoes the
same `[q, q^2]` expansion as the training column. -/
def polyPredict (pts : List (ℚ × ℚ)) (q : ℚ) : ℚ :=
  polyIntercept pts + (polyFit pts).1 * q + (polyFit pts).2 * q ^ 2

/-- Fitted quadratic `(a, b, c)` representing `price = a + b·rate + c·rate²`. -/
def polyCoefs (pts : List (ℚ × ℚ)) : ℚ × ℚ × ℚ :=
  (polyIntercept pts, polyFit pts)

/-- Pearson correlation of app.py:98, represented exactly: the value is
`cov / √(varX · varY)`, so it is carried as the pair
`(cov, varX · varY)` = `(cP pts, cA pts * cY pts)`; pandas returns `NaN`
when either column has zero variance, modelled as `none`. -/
def corrStat (pts : List (ℚ × ℚ)) : Option (ℚ × ℚ) :=
  if cA pts = 0 ∨ cY pts = 0 then none else some (cP pts, cA pts * cY pts)

/-- Everything the success branch renders (app.py:99-139): the prediction,
the correlation, the scatter points with the fitted curve's inputs, the
dual-axis trend data, and the month count shown in the caption. -/
structure Rendered where
  predictedPrice : ℚ
  corr : Option (ℚ × ℚ)
  scatter : List (ℚ × ℚ)
  trend : List (Int × ℚ × Option ℚ)
  months : Nat
deriving DecidableEq

/-- Outcome of one interaction: either the full rendering or the advisory
warning of app.py:141-142 (which shows no prediction, correlation or
chart). -/
inductive Output where
  | insufficientData : Output
  | rendered : Rendered → Output
deriving DecidableEq

/-- Embedding of the guarded branch at app.py:83-142: with fewer than 3
usable observations only the warning is emitted; otherwise the model is
fitted, the prediction and correlation are computed on the same filtered
series, and both charts are drawn from it. -/
def render (raw : List RawRow) (sel : String) (s e : Int) (k : Nat) (q : ℚ) :
    Output :=
  let rd := regionData raw sel s e k
  if rd.length ≠ 0 ∧ 3 ≤ rd.length then
    let pts := dataPairs rd
    Output.rendered
      { predictedPrice := polyPredict pts q
        corr := corrStat pts
        scatter := pts
        trend := rd.map fun lr => (lr.date, lr.price, lr.laggedRate)
        months := rd.length }
  else Output.insufficientData

/-- One user interaction's inputs (sidebar, app.py:49-68). -/
structure Inputs where
  sel : String
  startD : Int
  endD : Int
  lag : Nat
  queryRate : ℚ
deriving DecidableEq

/-- One full recomputation for a selection. -/
def runRequest (raw : List RawRow) (inp : Inputs) : Output :=
  render raw inp.sel inp.startD inp.endD inp.lag inp.queryRate

/-- One request against the process state (the dataset cached by
`@st.cache_data`).  The sort at app.py:73 returns a fresh frame and the
filtered frame is copied at app.py:84, so the cached dataset is read, never
written: the state component is returned unchanged. -/
def step (st : List RawRow) (inp : Inputs) : List RawRow × Output :=
  (st, runRequest st inp)

/-- Demo dataset with exactly two usable observations. -/
def demoTwo : List RawRow :=
  [{ region := "A", date := 1, rate := some 4, price := some 500 },
   { region := "A", date := 2, rate := some 5, price := some 520 }]

/-- Exactly quadratic three-point series: price = 5 + 2·rate + rate². -/
def ptsQuad : List (ℚ × ℚ) := [(1, 8), (2, 13), (3, 20)]

/-- Three observations sharing one rate value, with price = rate². -/
def ptsFlatQuad : List (ℚ × ℚ) := [(2, 4), (2, 4), (2, 4)]

/-- Two-region working frame. -/
def rowsTwoRegions : List Row :=
  [{ region := "A", date := 1, rate := 1, price := 10 },
   { region := "A", date := 2, rate := 2, price := 20 },
   { region := "A", date := 3, rate := 3, price := 30 },
   { region := "B", date := 1, rate := 7, price := 70 },
   { region := "B", date := 2, rate := 8, price := 80 }]

/-- Dataset whose rate column is constant. -/
def demoFlatRate : List RawRow :=
  [{ region := "A", date := 1, rate := some 3, price := some 10 },
   { region := "A", date := 2, rate := some 3, price := some 20 },
   { region := "A", date := 3, rate := some 3, price := some 30 }]

/-- Dataset whose price column is exactly twice the rate column. -/
def demoLine : List RawRow :=
  [{ region := "A", date := 1, rate := some 1, price := some 2 },
   { region := "A", date := 2, rate := some 2, price := some 4 },
   { region := "A", date := 3, rate := some 3, price := some 6 }]

/-- The (rate, price) pairs the demoLine selection produces. -/
def ptsLine : List (ℚ × ℚ) := [(1, 2), (2, 4), (3, 6)]

/-- Dataset with one malformed row (missing rate at date 3). -/
def demoMixed : List RawRow :=
  [{ region := "A", date := 1, rate := some 1, price := some 10 },
   { region := "A", date := 2, rate := some 2, price := some 20 },
   { region := "A", date := 3, rate := none, price := some 30 },
   { region := "A", date := 4, rate := some 4, price := some 40 }]

/-- Usable observation produced by the demoMixed selection. -/
def demoMixedRow : LaggedRow :=
  { region := "A", date := 1, rate := 1, price := 10, laggedRate := some 1 }

/-- Two-month dataset for the lag-window demonstration. -/
def demoWindow : List RawRow :=
  [{ region := "A", date := 1, rate := some 10, price := some 100 },
   { region := "A", date := 2, rate := some 20, price := some 200 }]

/-- The observation of `demoWindow` that survives the selection
(start = end = month 2) at lag 1: its lagged rate is the month-1 rate. -/
def demoWindowRow : LaggedRow :=
  { region := "A", date := 2, rate := 20, price := 200, laggedRate := some 10 }

/-- Three-month dataset for the lag monotonicity demonstration. -/
def demoMonths : List RawRow :=
  [{ region := "A", date := 1, rate := some 1, price := some 5 },
   { region := "A", date := 2, rate := some 2, price := some 6 },
   { region := "A", date := 3, rate := some 3, price := some 7 }]

/-!
List-sum helper lemmas used throughout: linearity of sums over `List.map`,
non-negativity of sums of squares, and the Cauchy–Schwarz inequality with
its equality case, all in the exact arithmetic of `ℚ`.
-/

theorem lsum_congr {α : Type} (l : List α) (f g : α → ℚ) (h : ∀ x ∈ l, f x = g x) :
    (l.map f).sum = (l.map g).sum := by
  induction l with
  | nil => rfl
  | cons a t ih =>
    simp only [List.map_cons, List.sum_cons]
    rw [h a (by simp), ih fun x hx => h x (by simp [hx])]

theorem lsum_add {α : Type} (l : List α) (f g : α → ℚ) :
    (l.map fun x => f x + g x).sum = (l.map f).sum + (l.map g).sum := by
  induction l with
  | nil => simp
  | cons a t ih => simp only [List.map_cons, List.sum_cons, ih]; ring

theorem lsum_mul {α : Type} (l : List α) (c : ℚ) (f : α → ℚ) :
    (l.map fun x => c * f x).sum = c * (l.map f).sum := by
  induction l with
  | nil => simp
  | cons a t ih => simp only [List.map_cons, List.sum_cons, ih]; ring

theorem lsum_const {α : Type} (l : List α) (c : ℚ) :
    (l.map fun _ => c).sum = c * (l.length : ℚ) := by
  induction l with
  | nil => simp
  | cons a t ih => simp only [List.map_cons, List.sum_cons, List.length_cons, ih]; push_cast; ring

theorem lsum_sq_nonneg {α : Type} (l : List α) (f : α → ℚ) :
    0 ≤ (l.map fun x => f x ^ 2).sum := by
  refine List.sum_nonneg ?_
  intro x hx
  obtain ⟨a, _, rfl⟩ := List.mem_map.mp hx
  positivity

theorem lsum_sq_eq_zero {α : Type} (l : List α) (f : α → ℚ)
    (h : (l.map fun x => f x ^ 2).sum = 0) : ∀ x ∈ l, f x = 0 := by
  induction l with
  | nil => simp
  | cons a t ih =>
    simp only [List.map_cons, List.sum_cons] at h
    have h1 : 0 ≤ f a ^ 2 := sq_nonneg _
    have h2 : 0 ≤ (t.map fun x => f x ^ 2).sum := lsum_sq_nonneg t f
    intro x hx
    rcases List.mem_cons.mp hx with rfl | hx
    · exact pow_eq_zero_iff (two_ne_zero) |>.mp (by linarith)
    · exact ih (by linarith) x hx

theorem cs_expand (l : List (ℚ × ℚ)) (u v : ℚ) :
    (l.map fun p => (u * p.1 - v * p.2) ^ 2).sum =
      u ^ 2 * (l.map fun p => p.1 ^ 2).sum
        - 2 * u * v * (l.map fun p => p.1 * p.2).sum
        + v ^ 2 * (l.map fun p => p.2 ^ 2).sum := by
  induction l with
  | nil => simp
  | cons a t ih => simp only [List.map_cons, List.sum_cons, ih]; ring

theorem cs_ineq (l : List (ℚ × ℚ)) :
    (l.map fun p => p.1 * p.2).sum ^ 2 ≤
      (l.map fun p => p.1 ^ 2).sum * (l.map fun p => p.2 ^ 2).sum := by
  have hA : 0 ≤ (l.map fun p => p.1 ^ 2).sum := lsum_sq_nonneg l fun p => p.1
  rcases eq_or_lt_of_le hA with hA0 | hApos
  · have hall : ∀ p ∈ l, p.1 = 0 := lsum_sq_eq_zero l (fun p => p.1) hA0.symm
    have hS : (l.map fun p => p.1 * p.2).sum = 0 := by
      rw [lsum_congr l _ (fun _ => 0) fun p hp => by rw [hall p hp]; ring]
      simp [lsum_const]
    rw [hS, ← hA0]
    simp
  · have key : 0 ≤ (l.map fun p =>
        ((l.map fun p => p.1 * p.2).sum * p.1 - (l.map fun p => p.1 ^ 2).sum * p.2) ^ 2).sum :=
      lsum_sq_nonneg l _
    rw [cs_expand] at key
    nlinarith [key, hApos]

theorem cs_eq_case (l : List (ℚ × ℚ))
    (he : (l.map fun p => p.1 * p.2).sum ^ 2 =
      (l.map fun p => p.1 ^ 2).sum * (l.map fun p => p.2 ^ 2).sum) :
    ∀ p ∈ l, p.2 * (l.map fun p => p.1 ^ 2).sum = p.1 * (l.map fun p => p.1 * p.2).sum := by
  have hz : (l.map fun p =>
      ((l.map fun p => p.1 * p.2).sum * p.1 - (l.map fun p => p.1 ^ 2).sum * p.2) ^ 2).sum = 0 := by
    rw [cs_expand]
    linear_combination (-(l.map fun p => p.1 ^ 2).sum) * he
  have hall := lsum_sq_eq_zero l _ hz
  intro p hp
  have h0 := hall p hp
  nlinarith [h0]

/-!
Regression algebra: non-singularity of the centered Gram matrix for series
containing three distinct rates, and the identities the centered sums
satisfy when the prices come exactly from a quadratic generator.
-/

theorem corr_sq_le (pts : List (ℚ × ℚ)) : cP pts ^ 2 ≤ cA pts * cY pts := by
  have h := cs_ineq (pts.map fun p => (p.1 - meanX pts, p.2 - meanY pts))
  simp only [List.map_map] at h
  exact h

theorem detG_ne_zero (pts : List (ℚ × ℚ)) (p₁ p₂ p₃ : ℚ × ℚ)
    (h₁ : p₁ ∈ pts) (h₂ : p₂ ∈ pts) (h₃ : p₃ ∈ pts)
    (h12 : p₁.1 ≠ p₂.1) (h13 : p₁.1 ≠ p₃.1) (h23 : p₂.1 ≠ p₃.1) :
    detG pts ≠ 0 := by
  intro hdet
  rcases eq_or_ne (cA pts) 0 with hA | hA
  · have hA' : (pts.map fun p => (p.1 - meanX pts) ^ 2).sum = 0 := hA
    have hall := lsum_sq_eq_zero pts (fun p => p.1 - meanX pts) hA'
    have e1 : p₁.1 - meanX pts = 0 := hall p₁ h₁
    have e2 : p₂.1 - meanX pts = 0 := hall p₂ h₂
    exact h12 (by linarith)
  · have hdet' : cC pts ^ 2 = cA pts * cB pts := by
      unfold detG at hdet; linarith
    have he : ((pts.map fun p => (p.1 - meanX pts, p.1 ^ 2 - meanX2 pts)).map
          fun p => p.1 * p.2).sum ^ 2 =
        ((pts.map fun p => (p.1 - meanX pts, p.1 ^ 2 - meanX2 pts)).map
            fun p => p.1 ^ 2).sum *
          ((pts.map fun p => (p.1 - meanX pts, p.1 ^ 2 - meanX2 pts)).map
            fun p => p.2 ^ 2).sum := by
      simp only [List.map_map]
      exact hdet'
    have key := cs_eq_case (pts.map fun p => (p.1 - meanX pts, p.1 ^ 2 - meanX2 pts)) he
    have key' : ∀ p ∈ pts, (p.1 ^ 2 - meanX2 pts) * cA pts = (p.1 - meanX pts) * cC pts := by
      intro p hp
      have h := key _ (List.mem_map_of_mem _ hp)
      simpa only [List.map_map] using h
    have hxy : (p₁.1 - p₂.1) * ((p₁.1 + p₂.1) * cA pts - cC pts) = 0 := by
      linear_combination key' p₁ h₁ - key' p₂ h₂
    have hxz : (p₁.1 - p₃.1) * ((p₁.1 + p₃.1) * cA pts - cC pts) = 0 := by
      linear_combination key' p₁ h₁ - key' p₃ h₃
    have e12 : (p₁.1 + p₂.1) * cA pts - cC pts = 0 :=
      (mul_eq_zero.mp hxy).resolve_left (sub_ne_zero.mpr h12)
    have e13 : (p₁.1 + p₃.1) * cA pts - cC pts = 0 :=
      (mul_eq_zero.mp hxz).resolve_left (sub_ne_zero.mpr h13)
    have e23 : (p₂.1 - p₃.1) * cA pts = 0 := by linear_combination e12 - e13
    exact hA ((mul_eq_zero.mp e23).resolve_left (sub_ne_zero.mpr h23))

theorem gen_meanY (pts : List (ℚ × ℚ)) (a b c : ℚ) (hn : nQ pts ≠ 0)
    (hgen : ∀ p ∈ pts, p.2 = a + b * p.1 + c * p.1 ^ 2) :
    meanY pts = a + b * meanX pts + c * meanX2 pts := by
  have hsum : (pts.map fun p => p.2).sum
      = a * (pts.length : ℚ) + b * (pts.map fun p => p.1).sum
        + c * (pts.map fun p => p.1 ^ 2).sum := by
    rw [lsum_congr pts (fun p => p.2) (fun p => a + (b * p.1 + c * p.1 ^ 2))
        fun p hp => by show p.2 = a + (b * p.1 + c * p.1 ^ 2); rw [hgen p hp]; ring]
    rw [lsum_add pts (fun _ => a) (fun p => b * p.1 + c * p.1 ^ 2)]
    rw [lsum_add pts (fun p => b * p.1) (fun p => c * p.1 ^ 2)]
    rw [lsum_const, lsum_mul, lsum_mul]
    ring
  have hn' : (pts.length : ℚ) ≠ 0 := hn
  simp only [meanY, meanX, meanX2, nQ, hsum]
  field_simp

theorem gen_cP (pts : List (ℚ × ℚ)) (a b c : ℚ) (hn : nQ pts ≠ 0)
    (hgen : ∀ p ∈ pts, p.2 = a + b * p.1 + c * p.1 ^ 2) :
    cP pts = b * cA pts + c * cC pts := by
  have hm := gen_meanY pts a b c hn hgen
  calc cP pts
      = (pts.map fun p => b * ((p.1 - meanX pts) ^ 2)
          + c * ((p.1 - meanX pts) * (p.1 ^ 2 - meanX2 pts))).sum :=
        lsum_congr pts _ _ fun p hp => by
          show (p.1 - meanX pts) * (p.2 - meanY pts)
            = b * ((p.1 - meanX pts) ^ 2) + c * ((p.1 - meanX pts) * (p.1 ^ 2 - meanX2 pts))
          rw [hgen p hp, hm]; ring
    _ = b * cA pts + c * cC pts := by
        rw [lsum_add pts (fun p => b * ((p.1 - meanX pts) ^ 2))
          (fun p => c * ((p.1 - meanX pts) * (p.1 ^ 2 - meanX2 pts)))]
        rw [lsum_mul pts b (fun p => (p.1 - meanX pts) ^ 2)]
        rw [lsum_mul pts c (fun p => (p.1 - meanX pts) * (p.1 ^ 2 - meanX2 pts))]
        rfl

theorem gen_cQ (pts : List (ℚ × ℚ)) (a b c : ℚ) (hn : nQ pts ≠ 0)
    (hgen : ∀ p ∈ pts, p.2 = a + b * p.1 + c * p.1 ^ 2) :
    cQ pts = b * cC pts + c * cB pts := by
  have hm := gen_meanY pts a b c hn hgen
  calc cQ pts
      = (pts.map fun p => b * ((p.1 - meanX pts) * (p.1 ^ 2 - meanX2 pts))
          + c * ((p.1 ^ 2 - meanX2 pts) ^ 2)).sum :=
        lsum_congr pts _ _ fun p hp => by
          show (p.1 ^ 2 - meanX2 pts) * (p.2 - meanY pts)
            = b * ((p.1 - meanX pts) * (p.1 ^ 2 - meanX2 pts)) + c * ((p.1 ^ 2 - meanX2 pts) ^ 2)
          rw [hgen p hp, hm]; ring
    _ = b * cC pts + c * cB pts := by
        rw [lsum_add pts (fun p => b * ((p.1 - meanX pts) * (p.1 ^ 2 - meanX2 pts)))
          (fun p => c * ((p.1 ^ 2 - meanX2 pts) ^ 2))]
        rw [lsum_mul pts b (fun p => (p.1 - meanX pts) * (p.1 ^ 2 - meanX2 pts))]
        rw [lsum_mul pts c (fun p => (p.1 ^ 2 - meanX2 pts) ^ 2)]
        rfl

theorem polyFit_det (pts : List (ℚ × ℚ)) (h : detG pts ≠ 0) :
    polyFit pts = ((cP pts * cB pts - cQ pts * cC pts) / detG pts,
      (cA pts * cQ pts - cC pts * cP pts) / detG pts) := by
  unfold polyFit
  rw [if_pos h]

theorem nQ_swap (l : List (ℚ × ℚ)) : nQ (l.map Prod.swap) = nQ l := by
  simp [nQ]

theorem meanX_swap (l : List (ℚ × ℚ)) : meanX (l.map Prod.swap) = meanY l := by
  simp only [meanX, meanY, nQ, List.map_map, List.length_map]
  rfl

theorem meanY_swap (l : List (ℚ × ℚ)) : meanY (l.map Prod.swap) = meanX l := by
  simp only [meanX, meanY, nQ, List.map_map, List.length_map]
  rfl

theorem cA_swap (l : List (ℚ × ℚ)) : cA (l.map Prod.swap) = cY l := by
  simp only [cA, cY, List.map_map, meanX_swap]
  rfl

theorem cY_swap (l : List (ℚ × ℚ)) : cY (l.map Prod.swap) = cA l := by
  simp only [cA, cY, List.map_map, meanY_swap]
  rfl

theorem cP_swap (l : List (ℚ × ℚ)) : cP (l.map Prod.swap) = cP l := by
  simp only [cP, List.map_map, meanX_swap, meanY_swap]
  refine lsum_congr l _ _ ?_
  intro p hp
  show (p.2 - meanY l) * (p.1 - meanX l) = (p.1 - meanX l) * (p.2 - meanY l)
  ring

/-!
Structural lemmas about the sorted frame and the lag column.
-/

theorem mem_insertRow (r x : Row) (l : List Row) : x ∈ insertRow r l ↔ x = r ∨ x ∈ l := by
  induction l with
  | nil => simp [insertRow]
  | cons a t ih =>
    by_cases h : rowLE r a
    · simp only [insertRow, if_pos h, List.mem_cons]
    · simp only [insertRow, if_neg h, List.mem_cons, ih]
      tauto

theorem mem_sortRows (l : List Row) (x : Row) : x ∈ sortRows l ↔ x ∈ l := by
  induction l with
  | nil => simp [sortRows]
  | cons a t ih => simp [sortRows, mem_insertRow, ih, List.mem_cons]

theorem applyLagGo_map_toRow (k : Nat) (rows : List Row) :
    ∀ prev, (applyLagGo k prev rows).map toRow = rows := by
  induction rows with
  | nil => intro prev; rfl
  | cons r rest ih =>
    intro prev
    simp only [applyLagGo, List.map_cons, ih]
    rfl

theorem mem_applyLag_toRow (k : Nat) (rows : List Row) (lr : LaggedRow)
    (h : lr ∈ applyLag k rows) : toRow lr ∈ rows := by
  have hmap := applyLagGo_map_toRow k rows []
  rw [← hmap]
  exact List.mem_map_of_mem toRow h

theorem laggedAt_isSome (k : Nat) (prev : List Row) (r : Row) :
    (laggedAt k prev r).isSome = true ↔
      k ≤ (prev.filter fun q => q.region == r.region).length := by
  simp only [laggedAt]
  split_ifs with h
  · have hlt : ((prev.filter fun q => q.region == r.region).map fun q => q.rate).length - k
        < (((prev.filter fun q => q.region == r.region).map fun q => q.rate) ++ [r.rate]).length := by
      simp only [List.length_append, List.length_map, List.length_cons, List.length_nil]
      omega
    rw [List.getElem?_eq_getElem hlt]
    simp only [List.length_map] at h
    simpa using h
  · simp only [List.length_map] at h
    simp [h]

theorem filter_filterMap {α β : Type} (f : α → Option β) (p : β → Bool) (q : α → Bool)
    (hpq : ∀ a b, f a = some b → p b = q a) (l : List α) :
    (l.filterMap f).filter p = (l.filter q).filterMap f := by
  induction l with
  | nil => rfl
  | cons a t ih =>
    rw [List.filter_cons]
    cases hfa : f a with
    | none =>
      rw [List.filterMap_cons_none hfa]
      by_cases hqa : q a = true
      · rw [if_pos hqa, List.filterMap_cons_none hfa, ih]
      · rw [if_neg hqa, ih]
    | some b =>
      have hpb := hpq a b hfa
      rw [List.filterMap_cons_some hfa, List.filter_cons, hpb]
      by_cases hqa : q a = true
      · rw [if_pos hqa, if_pos hqa, List.filterMap_cons_some hfa, ih]
      · rw [if_neg hqa, if_neg hqa, ih]

theorem applyLagGo_filter_region (k : Nat) (reg : String) :
    ∀ (rows prev : List Row),
      (applyLagGo k prev rows).filter (fun lr => lr.region == reg) =
        lagGo k ((prev.filter fun q => q.region == reg).map fun q => q.rate)
          (rows.filter fun q => q.region == reg) := by
  intro rows
  induction rows with
  | nil => intro prev; rfl
  | cons r rest ih =>
    intro prev
    simp only [applyLagGo, List.filter_cons]
    by_cases hb : (r.region == reg) = true
    · have hr : r.region = reg := by simpa using hb
      rw [if_pos hb, if_pos hb]
      simp only [lagGo]
      rw [ih (prev ++ [r])]
      have hfilt : (((prev ++ [r]).filter fun q => q.region == reg).map fun q => q.rate)
          = ((prev.filter fun q => q.region == reg).map fun q => q.rate) ++ [r.rate] := by
        rw [List.filter_append, List.map_append]
        simp [List.filter_cons, hb]
      rw [hfilt]
      simp only [laggedAt, hr]
    · rw [if_neg hb, if_neg hb]
      rw [ih (prev ++ [r])]
      have hfilt : ((prev ++ [r]).filter fun q => q.region == reg)
          = prev.filter fun q => q.region == reg := by
        rw [List.filter_append]
        simp [List.filter_cons, hb]
      rw [hfilt]

theorem lagGo_filterMap (k : Nat) :
    ∀ (l : List Row) (acc : List ℚ),
      (lagGo k acc l).filterMap substLag =
        List.zipWith substRow
          ((acc ++ l.map fun t => t.rate).drop (acc.length - k))
          (l.drop (k - acc.length)) := by
  intro l
  induction l with
  | nil =>
    intro acc
    simp [lagGo]
  | cons r rest ih =>
    intro acc
    simp only [lagGo]
    by_cases hk : k ≤ acc.length
    · have hidx : acc.length - k < (acc ++ [r.rate]).length := by
        simp only [List.length_append, List.length_cons, List.length_nil]
        omega
      have hsub :
          substLag
            { region := r.region, date := r.date, rate := r.rate, price := r.price,
              laggedRate := if k ≤ acc.length then (acc ++ [r.rate])[acc.length - k]? else none }
          = some (substRow ((acc ++ [r.rate]).get ⟨acc.length - k, hidx⟩) r) := by
        simp [substLag, substRow, hk, List.getElem?_eq_getElem hidx]
      rw [List.filterMap_cons_some hsub, ih (acc ++ [r.rate])]
      have e1 : (acc ++ [r.rate]).length - k = acc.length - k + 1 := by
        simp only [List.length_append, List.length_cons, List.length_nil]
        omega
      have e2 : k - (acc ++ [r.rate]).length = 0 := by
        simp only [List.length_append, List.length_cons, List.length_nil]
        omega
      have e3 : k - acc.length = 0 := by omega
      have hidx2 : acc.length - k < ((acc ++ [r.rate]) ++ rest.map fun t => t.rate).length := by
        simp only [List.length_append, List.length_cons, List.length_nil, List.length_map]
        omega
      have hdrop : List.drop (acc.length - k) ((acc ++ [r.rate]) ++ rest.map fun t => t.rate)
          = ((acc ++ [r.rate]).get ⟨acc.length - k, hidx⟩)
            :: List.drop (acc.length - k + 1) ((acc ++ [r.rate]) ++ rest.map fun t => t.rate) := by
        rw [List.drop_eq_getElem_cons hidx2]
        congr 1
        rw [List.getElem_append_left hidx]
        rw [List.get_eq_getElem]
      rw [e1, e2, e3, List.drop_zero, List.drop_zero, List.map_cons,
        List.append_cons acc r.rate (rest.map fun t => t.rate)]
      rw [hdrop, List.zipWith_cons_cons]
    · have hsub :
          substLag
            { region := r.region, date := r.date, rate := r.rate, price := r.price,
              laggedRate := if k ≤ acc.length then (acc ++ [r.rate])[acc.length - k]? else none }
          = none := by
        simp [substLag, hk]
      rw [List.filterMap_cons_none hsub, ih (acc ++ [r.rate])]
      have e1 : (acc ++ [r.rate]).length - k = 0 := by
        simp only [List.length_append, List.length_cons, List.length_nil]
        omega
      have e2 : acc.length - k = 0 := by omega
      obtain ⟨m, hm⟩ : ∃ m, k - acc.length = m + 1 := ⟨k - acc.length - 1, by omega⟩
      have e3 : k - (acc ++ [r.rate]).length = m := by
        simp only [List.length_append, List.length_cons, List.length_nil]
        omega
      rw [e1, e2, e3, hm, List.drop_zero, List.drop_zero, List.drop_succ_cons,
        List.map_cons, List.append_cons acc r.rate (rest.map fun t => t.rate)]

theorem lagGo_mem (k : Nat) :
    ∀ (l : List Row) (acc : List ℚ) (lr : LaggedRow), lr ∈ lagGo k acc l →
      ∃ j r, l[j]? = some r ∧
        lr = { region := r.region, date := r.date, rate := r.rate, price := r.price,
               laggedRate := if k ≤ acc.length + j
                 then (acc ++ l.map fun t => t.rate)[acc.length + j - k]? else none } := by
  intro l
  induction l with
  | nil =>
    intro acc lr h
    simp [lagGo] at h
  | cons r rest ih =>
    intro acc lr h
    simp only [lagGo] at h
    rcases List.mem_cons.mp h with rfl | htail
    · refine ⟨0, r, by simp, ?_⟩
      congr 1
      by_cases hk : k ≤ acc.length
      · rw [if_pos hk, if_pos (by omega : k ≤ acc.length + 0)]
        rw [List.map_cons, List.append_cons acc r.rate (rest.map fun t => t.rate)]
        have h1 : acc.length + 0 - k = acc.length - k := by omega
        rw [h1]
        conv_rhs => rw [List.getElem?_append]
        rw [if_pos (by simp only [List.length_append, List.length_cons, List.length_nil]; omega)]
      · rw [if_neg hk, if_neg (by omega : ¬ k ≤ acc.length + 0)]
    · obtain ⟨j, r', hj, heq⟩ := ih (acc ++ [r.rate]) lr htail
      refine ⟨j + 1, r', ?_, ?_⟩
      · rw [List.getElem?_cons_succ]
        exact hj
      · rw [heq]
        congr 1
        have hlen : (acc ++ [r.rate]).length = acc.length + 1 := by simp
        rw [hlen, List.map_cons, List.append_cons acc r.rate (rest.map fun t => t.rate)]
        have h1 : acc.length + 1 + j = acc.length + (j + 1) := by omega
        rw [h1]

theorem applyLagGo_filter_length_mono (k K : Nat) (hkk : k ≤ K) (base : Row → Bool) :
    ∀ (rows prev : List Row),
      ((applyLagGo K prev rows).filter fun lr => lr.laggedRate.isSome && base (toRow lr)).length
        ≤ ((applyLagGo k prev rows).filter fun lr =>
            lr.laggedRate.isSome && base (toRow lr)).length := by
  intro rows
  induction rows with
  | nil => intro prev; exact Nat.le_refl _
  | cons r rest ih =>
    intro prev
    simp only [applyLagGo, List.filter_cons]
    have htr : ∀ x : Option ℚ,
        toRow { region := r.region, date := r.date, rate := r.rate, price := r.price,
                laggedRate := x }
          = { region := r.region, date := r.date, rate := r.rate, price := r.price } :=
      fun _ => rfl
    simp only [htr]
    by_cases hbase :
        base { region := r.region, date := r.date, rate := r.rate, price := r.price } = true
    · by_cases hK : (laggedAt K prev r).isSome = true
      · have hk0 : (laggedAt k prev r).isSome = true := by
          rw [laggedAt_isSome] at hK ⊢
          omega
        rw [if_pos (by simp [hK, hbase]), if_pos (by simp [hk0, hbase])]
        simpa using ih (prev ++ [r])
      · rw [if_neg (by simp [hK])]
        by_cases hk0 : (laggedAt k prev r).isSome = true
        · rw [if_pos (by simp [hk0, hbase])]
          refine le_trans (ih (prev ++ [r])) ?_
          simp only [List.length_cons]
          omega
        · rw [if_neg (by simp [hk0])]
          exact ih (prev ++ [r])
    · rw [if_neg (by simp [hbase]), if_neg (by simp [hbase])]
      exact ih (prev ++ [r])

theorem render_insufficient_iff (raw : List RawRow) (sel : String) (s e : Int)
    (k : Nat) (q : ℚ) :
    render raw sel s e k q = Output.insufficientData ↔
      (regionData raw sel s e k).length < 3 := by
  simp only [render]
  by_cases h : (regionData raw sel s e k).length ≠ 0 ∧ 3 ≤ (regionData raw sel s e k).length
  · rw [if_pos h]
    exact iff_of_false (by simp) (by omega)
  · rw [if_neg h]
    exact iff_of_true rfl (by omega)

/-!
The claims.
-/

/-- C1: for every selection (region, date range, lag), when the filtered
series has fewer than 3 usable observations the predictor signals
InsufficientData: the output is the advisory `Output.insufficientData`
branch of app.py:141-142, which by construction of `render` performs no
model fit and carries no prediction, no correlation and no charts.  The
witness instantiates the theorem at a dataset whose filtered series has
exactly 2 observations. -/
theorem insufficient_data_guard (raw : List RawRow) (sel : String) (s e : Int)
    (k : Nat) (q : ℚ) (h : (regionData raw sel s e k).length < 3) :
    render raw sel s e k q = Output.insufficientData :=
  (render_insufficient_iff raw sel s e k q).mpr h

/-- Witness for C1: a series with exactly 2 observations triggers the
insufficient-data signal. -/
theorem insufficient_data_guard_witness :
    (regionData demoTwo "A" 1 9 0).length = 2 ∧
      render demoTwo "A" 1 9 0 (7 / 2) = Output.insufficientData :=
  ⟨by decide, insufficient_data_guard demoTwo "A" 1 9 0 (7 / 2) (by decide)⟩

/-- C2 counterexample: the claim quantifies over every series of at least 3
observations generated exactly by a quadratic, but a series whose three
observations share one rate value (here rate 2, price = rate² = 4,
generator a = 0, b = 0, c = 1) defeats it: the centered design is
rank-deficient, the minimum-norm fit returns the constant mean
(coefficients (4, 0, 0), not (0, 0, 1)), and the prediction at query rate 0
is 4, not the generator's 0. -/
theorem quadratic_recovery_counterexample :
    (∀ p ∈ ptsFlatQuad, p.2 = 0 + 0 * p.1 + 1 * p.1 ^ 2) ∧
      3 ≤ ptsFlatQuad.length ∧
      polyCoefs ptsFlatQuad ≠ (0, 0, 1) ∧
      polyPredict ptsFlatQuad 0 ≠ 0 + 0 * 0 + 1 * 0 ^ 2 := by
  refine ⟨?_, by decide, ?_, ?_⟩
  · intro p hp
    fin_cases hp <;> norm_num
  · norm_num [polyCoefs, polyIntercept, polyFit, detG, cA, cB, cC, cP, cQ,
      meanX, meanX2, meanY, nQ, ptsFlatQuad, Prod.ext_iff]
  · norm_num [polyPredict, polyIntercept, polyFit, detG, cA, cB, cC, cP, cQ,
      meanX, meanX2, meanY, nQ, ptsFlatQuad]

/-- C2 (amended): the degree-2 fit uses exactly the expansion `[rate, rate²]`
(no cross terms — see `polyFit`/`polyPredict`, whose only features are `q`
and `q ^ 2`), fits linear coefficients by least squares, and applies the same
expansion to the query rate; for every series of at least 3 observations
containing at least three pairwise-distinct rate values and generated
exactly by price = a + b·rate + c·rate², the fit recovers (a, b, c) exactly
and the prediction at every query rate equals the generator's value.  (The
distinct-rates condition is what the counterexample forces: without it the
centered Gram matrix is singular.) -/
theorem quadratic_recovery (pts : List (ℚ × ℚ)) (a b c : ℚ)
    (h3 : 3 ≤ pts.length) (p₁ p₂ p₃ : ℚ × ℚ)
    (h₁ : p₁ ∈ pts) (h₂ : p₂ ∈ pts) (h₃ : p₃ ∈ pts)
    (h12 : p₁.1 ≠ p₂.1) (h13 : p₁.1 ≠ p₃.1) (h23 : p₂.1 ≠ p₃.1)
    (hgen : ∀ p ∈ pts, p.2 = a + b * p.1 + c * p.1 ^ 2) :
    polyCoefs pts = (a, b, c) ∧ ∀ q : ℚ, polyPredict pts q = a + b * q + c * q ^ 2 := by
  have hn : nQ pts ≠ 0 := by
    have hne : pts ≠ [] := by
      intro h0
      rw [h0] at h₁
      exact absurd h₁ (List.not_mem_nil p₁)
    have hpos : 0 < pts.length := List.length_pos.mpr hne
    simp only [nQ]
    exact_mod_cast Nat.pos_iff_ne_zero.mp hpos
  have hdet := detG_ne_zero pts p₁ p₂ p₃ h₁ h₂ h₃ h12 h13 h23
  have hcP := gen_cP pts a b c hn hgen
  have hcQ := gen_cQ pts a b c hn hgen
  have hm := gen_meanY pts a b c hn hgen
  have hfit : polyFit pts = (b, c) := by
    rw [polyFit_det pts hdet]
    have hb : (cP pts * cB pts - cQ pts * cC pts) / detG pts = b := by
      rw [hcP, hcQ, div_eq_iff hdet, detG]
      ring
    have hc : (cA pts * cQ pts - cC pts * cP pts) / detG pts = c := by
      rw [hcP, hcQ, div_eq_iff hdet, detG]
      ring
    rw [hb, hc]
  have hint : polyIntercept pts = a := by
    simp only [polyIntercept, hfit]
    rw [hm]
    ring
  refine ⟨?_, ?_⟩
  · simp only [polyCoefs, hfit, hint]
  · intro q
    simp only [polyPredict, hint, hfit]

/-- Witness for C2 (amended): the three-point series generated by
price = 5 + 2·rate + rate² is fitted exactly and predicts the generator's
value 29 at the interpolation query rate 4. -/
theorem quadratic_recovery_witness :
    polyCoefs ptsQuad = (5, 2, 1) ∧ polyPredict ptsQuad 4 = 29 := by
  have h := quadratic_recovery ptsQuad 5 2 1 (by decide) (1, 8) (2, 13) (3, 20)
    (by decide) (by decide) (by decide) (by decide) (by decide) (by decide)
    (by intro p hp; fin_cases hp <;> norm_num)
  refine ⟨h.1, ?_⟩
  have h4 := h.2 4
  norm_num at h4
  exact h4

/-- C3: for every input frame and every lag k > 0, the lag transform (shift
within region, substitute, drop the rows without a predecessor) produces no
more observations than the input, and its restriction to any one region
equals exactly: pair each surviving observation (the region sub-series with
its first k entries dropped) with the rate from k positions earlier in the
same region's sub-series.  Regions are never mixed — the right-hand side is
built from that region's rows only.  (In the pipeline the frame is sorted by
(region, date) first, so list order within a region is date order.) -/
theorem apply_lag_characterization (rows : List Row) (k : Nat) (hk : 0 < k)
    (reg : String) :
    (lagSeries k rows).length ≤ rows.length ∧
      (lagSeries k rows).filter (fun r => r.region == reg) =
        List.zipWith substRow
          ((rows.filter fun r => r.region == reg).map fun r => r.rate)
          ((rows.filter fun r => r.region == reg).drop k) := by
  constructor
  · have hlen : (applyLag k rows).length = rows.length := by
      have h := congrArg List.length (applyLagGo_map_toRow k rows [])
      simpa using h
    calc (lagSeries k rows).length ≤ (applyLag k rows).length :=
          List.length_filterMap_le _ _
      _ = rows.length := hlen
  · have hpq : ∀ (x : LaggedRow) (y : Row), substLag x = some y →
        (y.region == reg) = (x.region == reg) := by
      intro x y hxy
      cases hx : x.laggedRate with
      | none => simp [substLag, hx] at hxy
      | some v =>
        simp only [substLag, hx, Option.map_some', Option.some.injEq] at hxy
        rw [← hxy]
    show ((applyLag k rows).filterMap substLag).filter (fun r => r.region == reg) = _
    rw [filter_filterMap substLag (fun r : Row => r.region == reg)
      (fun lr : LaggedRow => lr.region == reg) hpq (applyLag k rows)]
    have hbr : (applyLag k rows).filter (fun lr => lr.region == reg)
        = lagGo k [] (rows.filter fun q => q.region == reg) := by
      have h := applyLagGo_filter_region k reg rows []
      simpa using h
    rw [hbr, lagGo_filterMap k (rows.filter fun q => q.region == reg) []]
    simp

/-- Witness for C3 at a concrete two-region frame with lag 1. -/
theorem apply_lag_characterization_witness :
    (lagSeries 1 rowsTwoRegions).length ≤ rowsTwoRegions.length ∧
      (lagSeries 1 rowsTwoRegions).filter (fun r => r.region == "A") =
        List.zipWith substRow
          ((rowsTwoRegions.filter fun r => r.region == "A").map fun r => r.rate)
          ((rowsTwoRegions.filter fun r => r.region == "A").drop 1) :=
  apply_lag_characterization rowsTwoRegions 1 (by decide) "A"

/-- C4: applying the lag transform with lag 0 (`shift(0)` followed by the
substitution and the dropna) returns the input frame unchanged: every
observation keeps its own rate and no row is dropped — lag 0 is the
identity transform. -/
theorem apply_lag_zero_identity (rows : List Row) : lagSeries 0 rows = rows := by
  have aux : ∀ (l : List Row) (prev : List Row),
      (applyLagGo 0 prev l).filterMap substLag = l := by
    intro l
    induction l with
    | nil => intro prev; rfl
    | cons r rest ih =>
      intro prev
      simp only [applyLagGo]
      have hl : laggedAt 0 prev r = some r.rate := by
        simp only [laggedAt]
        rw [if_pos (Nat.zero_le _), Nat.sub_zero, List.getElem?_concat_length]
      have hsub :
          substLag
            { region := r.region, date := r.date, rate := r.rate, price := r.price,
              laggedRate := laggedAt 0 prev r }
          = some r := by
        simp only [substLag, hl, Option.map_some']
      rw [List.filterMap_cons_some hsub, ih (prev ++ [r])]
  exact aux rows []

/-- C5: when the (lagged) rate column or the price column of the filtered
series has zero variance, the correlation is the NaN marker `none` —
reported distinctly from every successful numeric result `some …` by the
type itself, with no arithmetic error possible (the computation is total) —
and the rest of the pipeline still completes: the output is the fully
rendered branch, whose prediction is the model evaluated on the very same
series. -/
theorem zero_variance_corr (raw : List RawRow) (sel : String) (s e : Int)
    (k : Nat) (q : ℚ) (h3 : 3 ≤ (regionData raw sel s e k).length)
    (hvar : cA (seriesOf raw sel s e k) = 0 ∨ cY (seriesOf raw sel s e k) = 0) :
    ∃ out, render raw sel s e k q = Output.rendered out ∧ out.corr = none ∧
      out.predictedPrice = polyPredict (seriesOf raw sel s e k) q ∧
      out.months = (regionData raw sel s e k).length := by
  have hcond : (regionData raw sel s e k).length ≠ 0 ∧
      3 ≤ (regionData raw sel s e k).length := ⟨by omega, h3⟩
  simp only [render]
  rw [if_pos hcond]
  refine ⟨_, rfl, ?_, rfl, rfl⟩
  show corrStat (dataPairs (regionData raw sel s e k)) = none
  unfold corrStat
  exact if_pos hvar

/-- Witness for C5: a selection whose lagged-rate column is constant renders
with correlation `none` and a prediction still present. -/
theorem zero_variance_corr_witness :
    ∃ out, render demoFlatRate "A" 1 3 0 2 = Output.rendered out ∧ out.corr = none ∧
      out.predictedPrice = polyPredict (seriesOf demoFlatRate "A" 1 3 0) 2 ∧
      out.months = (regionData demoFlatRate "A" 1 3 0).length := by
  refine zero_variance_corr demoFlatRate "A" 1 3 0 2 (by decide) (Or.inl ?_)
  have hp : seriesOf demoFlatRate "A" 1 3 0 = [(3, 10), (3, 20), (3, 30)] := by decide
  rw [hp]
  norm_num [cA, meanX, nQ]

/-- C6: on the series the pipeline feeds to both the fit and the
correlation (`seriesOf`, the pairs of `regionData`), whenever both columns
have non-zero variance the Pearson coefficient — the unique real `r` with
`r · √(varX · varY) = cov`, carried by the code as the exact pair
`corrStat = some (cov, varX · varY)` — lies in [-1, 1], and it is
symmetric: the same `r` satisfies the defining equation of the
column-swapped series. -/
theorem corr_bounds_symmetry (raw : List RawRow) (sel : String) (s e : Int)
    (k : Nat) (pts : List (ℚ × ℚ)) (hpts : pts = seriesOf raw sel s e k)
    (hx : cA pts ≠ 0) (hy : cY pts ≠ 0) (r : ℝ)
    (hr : r * Real.sqrt ((cA pts * cY pts : ℚ) : ℝ) = ((cP pts : ℚ) : ℝ)) :
    (-1 ≤ r ∧ r ≤ 1) ∧
      r * Real.sqrt ((cA (pts.map Prod.swap) * cY (pts.map Prod.swap) : ℚ) : ℝ)
        = ((cP (pts.map Prod.swap) : ℚ) : ℝ) ∧
      corrStat pts = some (cP pts, cA pts * cY pts) := by
  have hA0 : (0 : ℚ) ≤ cA pts := lsum_sq_nonneg pts fun p => p.1 - meanX pts
  have hY0 : (0 : ℚ) ≤ cY pts := lsum_sq_nonneg pts fun p => p.2 - meanY pts
  have hApos : (0 : ℚ) < cA pts := lt_of_le_of_ne hA0 (Ne.symm hx)
  have hYpos : (0 : ℚ) < cY pts := lt_of_le_of_ne hY0 (Ne.symm hy)
  have hDpos : (0 : ℝ) < ((cA pts * cY pts : ℚ) : ℝ) := by
    exact_mod_cast mul_pos hApos hYpos
  have hsq : Real.sqrt ((cA pts * cY pts : ℚ) : ℝ) ^ 2 = ((cA pts * cY pts : ℚ) : ℝ) :=
    Real.sq_sqrt hDpos.le
  have hcs : ((cP pts : ℚ) : ℝ) ^ 2 ≤ ((cA pts * cY pts : ℚ) : ℝ) := by
    exact_mod_cast corr_sq_le pts
  have hr2 : r ^ 2 * ((cA pts * cY pts : ℚ) : ℝ) = ((cP pts : ℚ) : ℝ) ^ 2 := by
    have h := congrArg (fun t : ℝ => t ^ 2) hr
    simp only [mul_pow] at h
    rw [Real.sq_sqrt hDpos.le] at h
    exact h
  have hr2le : r ^ 2 ≤ 1 := by nlinarith [hr2, hcs, hDpos]
  refine ⟨⟨by nlinarith [hr2le, sq_nonneg (r + 1)], by nlinarith [hr2le, sq_nonneg (r - 1)]⟩,
    ?_, ?_⟩
  · rw [cA_swap, cY_swap, cP_swap, mul_comm (cY pts) (cA pts)]
    exact hr
  · unfold corrStat
    rw [if_neg (by push_neg; exact ⟨hx, hy⟩)]

/-- Witness for C6 at a perfectly correlated selection: varX = 2, varY = 8,
cov = 4, so r = 1 satisfies the defining equation and all conclusions hold. -/
theorem corr_bounds_symmetry_witness :
    (-1 ≤ (1 : ℝ) ∧ (1 : ℝ) ≤ 1) ∧
      (1 : ℝ) * Real.sqrt ((cA (ptsLine.map Prod.swap) * cY (ptsLine.map Prod.swap) : ℚ) : ℝ)
        = ((cP (ptsLine.map Prod.swap) : ℚ) : ℝ) ∧
      corrStat ptsLine = some (cP ptsLine, cA ptsLine * cY ptsLine) := by
  refine corr_bounds_symmetry demoLine "A" 1 3 0 ptsLine (by decide) ?_ ?_ 1 ?_
  · norm_num [ptsLine, cA, meanX, nQ]
  · norm_num [ptsLine, cY, meanY, nQ]
  · have hca : cA ptsLine = 2 := by norm_num [ptsLine, cA, meanX, nQ]
    have hcy : cY ptsLine = 8 := by norm_num [ptsLine, cY, meanY, nQ]
    have hcp : cP ptsLine = 4 := by norm_num [ptsLine, cP, meanX, meanY, nQ]
    rw [hca, hcy, hcp]
    rw [show ((2 * 8 : ℚ) : ℝ) = (4 : ℝ) ^ 2 by norm_num]
    rw [Real.sqrt_sq (by norm_num : (0 : ℝ) ≤ 4)]
    norm_num

/-- C7: every observation participating in fitting or correlation — that
is, every row of `regionData`, from which both `X`, `y` and the correlation
columns are read — has a present (non-missing) lagged rate, and stems from
a raw source row whose rate and price fields are both present: malformed
rows are excluded at load time (app.py:40) and rows without a lag
predecessor after the lag transform (app.py:81), locally and without being
surfaced individually. -/
theorem usable_observations (raw : List RawRow) (sel : String) (s e : Int)
    (k : Nat) (lr : LaggedRow) (hmem : lr ∈ regionData raw sel s e k) :
    lr.laggedRate.isSome = true ∧
      ∃ t ∈ raw, t.region = lr.region ∧ t.date = lr.date ∧
        t.rate = some lr.rate ∧ t.price = some lr.price := by
  have h1 : lr ∈ (applyLag k (sortRows (loadData raw))).filter fun x =>
      x.region == sel && decide (s ≤ x.date) && decide (x.date ≤ e) :=
    (List.mem_filter.mp hmem).1
  have hsome : lr.laggedRate.isSome = true := (List.mem_filter.mp hmem).2
  refine ⟨hsome, ?_⟩
  have h2 : lr ∈ applyLag k (sortRows (loadData raw)) := (List.mem_filter.mp h1).1
  have h3 : toRow lr ∈ sortRows (loadData raw) := mem_applyLag_toRow _ _ _ h2
  have h4 : toRow lr ∈ loadData raw := (mem_sortRows _ _).mp h3
  obtain ⟨t, ht, hload⟩ := List.mem_filterMap.mp h4
  refine ⟨t, ht, ?_⟩
  cases hrt : t.rate with
  | none => simp [loadRow, hrt] at hload
  | some av =>
    cases hpt : t.price with
    | none => simp [loadRow, hrt, hpt] at hload
    | some pv =>
      have hload' : Row.mk t.region t.date av pv = toRow lr := by
        have hx : loadRow t = some (Row.mk t.region t.date av pv) := by
          simp [loadRow, hrt, hpt]
        rw [hx] at hload
        exact Option.some.inj hload
      rw [show toRow lr = Row.mk lr.region lr.date lr.rate lr.price from rfl,
        Row.mk.injEq] at hload'
      obtain ⟨e1, e2, e3, e4⟩ := hload'
      exact ⟨e1, e2, congrArg some e3, congrArg some e4⟩

/-- Witness for C7 at a dataset with one malformed row. -/
theorem usable_observations_witness :
    (demoMixedRow ∈ regionData demoMixed "A" 1 9 0) ∧
      (demoMixedRow.laggedRate.isSome = true ∧
        ∃ t ∈ demoMixed, t.region = demoMixedRow.region ∧ t.date = demoMixedRow.date ∧
          t.rate = some demoMixedRow.rate ∧ t.price = some demoMixedRow.price) :=
  ⟨by decide, usable_observations demoMixed "A" 1 9 0 demoMixedRow (by decide)⟩

/-- C8: the prediction pipeline is a pure, deterministic function of the
cached dataset and the user inputs: one request leaves the process state
(the dataset cached by `@st.cache_data`) unchanged, a request interleaved
between two identical requests does not alter the later result, and the
output is exactly `runRequest` of the state and inputs — no hidden state.
(In the source, app.py:73 `sort_values` returns a fresh frame and app.py:84
copies the filtered frame, so the cached frame is never written.) -/
theorem pure_pipeline (st : List RawRow) (inp other : Inputs) :
    (step st inp).1 = st ∧
      (step (step st other).1 inp).2 = (step st inp).2 ∧
      (step st inp).2 = runRequest st inp :=
  ⟨rfl, rfl, rfl⟩

/-- C9: the lag column is computed on each region's full date-ordered
series (app.py:73-74) before the date-range filter (app.py:79-80), so every
row of the filtered working series takes its lagged rate from position
j - k of the full region series, where j is the row's position there — with
no constraint that the source position lie inside the selected window.  The
witness exhibits a selection whose surviving row carries the rate of a
source row dated strictly before the selected start date. -/
theorem lag_source_from_full_series (raw : List RawRow) (sel : String) (s e : Int)
    (k : Nat) (lr : LaggedRow) (hmem : lr ∈ regionData raw sel s e k) :
    ∃ j src, (regionSeries raw sel)[j]? = some src ∧ k ≤ j ∧
      lr.region = src.region ∧ lr.date = src.date ∧ lr.rate = src.rate ∧
      lr.price = src.price ∧
      lr.laggedRate = ((regionSeries raw sel).map fun t => t.rate)[j - k]? := by
  have h1 : lr ∈ (applyLag k (sortRows (loadData raw))).filter fun x =>
      x.region == sel && decide (s ≤ x.date) && decide (x.date ≤ e) :=
    (List.mem_filter.mp hmem).1
  have hsome : lr.laggedRate.isSome = true := (List.mem_filter.mp hmem).2
  have h2 : lr ∈ applyLag k (sortRows (loadData raw)) := (List.mem_filter.mp h1).1
  have hcond := (List.mem_filter.mp h1).2
  have hreg : (lr.region == sel) = true := by
    simp only [Bool.and_eq_true] at hcond
    exact hcond.1.1
  have h5 : lr ∈ (applyLag k (sortRows (loadData raw))).filter fun x => x.region == sel :=
    List.mem_filter.mpr ⟨h2, hreg⟩
  have hbr : (applyLag k (sortRows (loadData raw))).filter (fun x => x.region == sel)
      = lagGo k [] (regionSeries raw sel) := by
    have h := applyLagGo_filter_region k sel (sortRows (loadData raw)) []
    simpa [regionSeries] using h
  rw [hbr] at h5
  obtain ⟨j, src, hj, heq⟩ := lagGo_mem k (regionSeries raw sel) [] lr h5
  simp only [List.length_nil, Nat.zero_add, List.nil_append] at heq
  by_cases hk : k ≤ j
  · rw [if_pos hk] at heq
    subst heq
    exact ⟨j, src, hj, hk, rfl, rfl, rfl, rfl, rfl⟩
  · rw [if_neg hk] at heq
    rw [heq] at hsome
    simp at hsome

/-- Witness for C9: with start = end = month 2 and lag 1, the surviving
observation's lagged rate is the rate (10) of the month-1 row, whose date 1
is strictly before the selected start date 2. -/
theorem lag_source_from_full_series_witness :
    (∃ j src, (regionSeries demoWindow "A")[j]? = some src ∧ 1 ≤ j ∧
      demoWindowRow.region = src.region ∧ demoWindowRow.date = src.date ∧
      demoWindowRow.rate = src.rate ∧ demoWindowRow.price = src.price ∧
      demoWindowRow.laggedRate = ((regionSeries demoWindow "A").map fun t => t.rate)[j - 1]?) ∧
      (regionSeries demoWindow "A")[0]?
        = some { region := "A", date := 1, rate := 10, price := 100 } ∧
      (1 : Int) < 2 :=
  ⟨lag_source_from_full_series demoWindow "A" 2 2 1 demoWindowRow (by decide),
    by decide, by decide⟩

/-- C10: for a fixed region and date range, the number of usable
observations (rows surviving the lagged-rate dropna) is monotonically
non-increasing in the lag, and consequently a selection that signals
InsufficientData at some lag still signals it at every larger lag —
equivalently, increasing the lag can only turn a success into
InsufficientData, never the reverse.  The witness's extra conjuncts show an
actual drop from 3 usable observations at lag 0 to 0 at lag 3. -/
theorem lag_monotone (raw : List RawRow) (sel : String) (s e : Int) (q : ℚ)
    (k K : Nat) (hkk : k ≤ K) :
    (regionData raw sel s e K).length ≤ (regionData raw sel s e k).length ∧
      (render raw sel s e k q = Output.insufficientData →
        render raw sel s e K q = Output.insufficientData) := by
  have hlen : (regionData raw sel s e K).length ≤ (regionData raw sel s e k).length := by
    have hmono := applyLagGo_filter_length_mono k K hkk
      (fun row => row.region == sel && decide (s ≤ row.date) && decide (row.date ≤ e))
      (sortRows (loadData raw)) []
    have hconv : ∀ m : Nat, regionData raw sel s e m
        = (applyLagGo m [] (sortRows (loadData raw))).filter fun lr =>
            lr.laggedRate.isSome &&
              ((toRow lr).region == sel && decide (s ≤ (toRow lr).date)
                && decide ((toRow lr).date ≤ e)) := by
      intro m
      unfold regionData applyLag
      rw [List.filter_filter]
      refine List.filter_congr ?_
      intro x hx
      rfl
    rw [hconv k, hconv K]
    exact hmono
  refine ⟨hlen, ?_⟩
  intro hins
  rw [render_insufficient_iff] at hins ⊢
  omega

/-- Witness for C10: at the demo dataset the usable count drops from 3
(lag 0) to 0 (lag 3), so the monotonicity instance is strict there. -/
theorem lag_monotone_witness :
    ((regionData demoMonths "A" 1 3 3).length ≤ (regionData demoMonths "A" 1 3 0).length ∧
      (render demoMonths "A" 1 3 0 1 = Output.insufficientData →
        render demoMonths "A" 1 3 3 1 = Output.insufficientData)) ∧
      (regionData demoMonths "A" 1 3 0).length = 3 ∧
      (regionData demoMonths "A" 1 3 3).length = 0 :=
  ⟨lag_monotone demoMonths "A" 1 3 1 0 3 (by decide), by decide, by decide⟩

end RatePredict
